import Mathlib

/-!
# Verification of the admission waiting list (`src/waitlist.cpp`)

Shallow embedding of the waiting-list component of the server.  The C++
state is a `std::list<Wait>` together with a `std::list` iterator
`priorityEnd` stored in `WaitListInfo`.  We embed:

* `Wait` — one queue entry; `timeout` is a `std::size_t` (64-bit unsigned
  on the assumed LP64 platform), so stored values are reduced mod `2^64`;
  `playerGUID` is a `uint32_t`.
* the `priorityEnd` iterator as a `BoundaryRef`: a `std::list` iterator is
  a stable pointer to a node, so under our positional representation an
  erasure before it shifts its index down by one, erasing the very node it
  points to leaves it dangling (using it afterwards is undefined behaviour
  in C++; the model records the `dangling` state explicitly), and the
  `end()` iterator stays `end()` across all insertions and erasures.
* `OTSYS_TIME()` as an `Int` parameter (C++ `int64_t`), and the reads of
  `g_game.getPlayersOnline()` and `g_config.getNumber(MAX_PLAYERS)` as
  `Nat` parameters supplied at each call, since the C++ re-reads these
  globals on every call.

The expiry test in the C++ source is `(it->timeout - time) <= 0` where
`it->timeout : std::size_t` and `time : int64_t`; by the usual arithmetic
conversions the subtraction is performed in `uint64_t`, so the comparison
holds exactly when the difference is `0` mod `2^64`.  The embedding keeps
that semantics (`staleB`).
-/

namespace Waitlist

/-- `2^64`, the modulus of `std::size_t` / `uint64_t` arithmetic on the
LP64 platform the server targets. -/
def sizeTMod : Nat := 2 ^ 64

/-- Conversion of a C++ arithmetic result into the `std::size_t` value that
gets stored: reduction mod `2^64` (as an `Int.emod`, always non-negative). -/
def toSizeT (x : Int) : Nat := (x % (sizeTMod : Int)).toNat

/-- One waiting-queue entry (`struct Wait` in `waitlist.cpp`). -/
structure Wait where
  timeout : Nat
  playerGUID : Nat
  deriving DecidableEq, Repr

/-- The `priorityEnd` iterator of `WaitListInfo`, positionally.  `atEnd` is
the `end()` iterator, `idx i` points at the node currently in position `i`
(0-based), `dangling` records that the node it pointed to was erased. -/
inductive BoundaryRef where
  | atEnd
  | idx (i : Nat)
  | dangling
  deriving DecidableEq, Repr

/-- The queue state (`struct WaitListInfo`): the list plus the
`priorityEnd` iterator. -/
structure WaitListInfo where
  waitList : List Wait
  priorityEnd : BoundaryRef
  deriving DecidableEq, Repr

/-- The data `clientLogin` reads from a `Player`: `getGUID()`,
`hasFlag(PlayerFlag_CanAlwaysLogin)`, `getAccountType()`, `isPremium()`. -/
structure Player where
  guid : Nat
  canAlwaysLogin : Bool
  accountType : Nat
  premium : Bool
  deriving DecidableEq, Repr

/-- Modelled from the spec: the staff-tier cutoff `ACCOUNT_TYPE_GAMEMASTER`
of the account-type enum, which lives outside `src/` (the spec calls the
bypass "a staff-tier privilege").  Only the order matters: tiers at or
above this value bypass the queue. -/
def ACCOUNT_TYPE_GAMEMASTER : Nat := 4

/-- `WaitingList::getTime` in `waitlist.cpp`: the expected retry interval
in seconds for a 1-based slot. -/
def getTime (slot : Nat) : Nat :=
  if slot < 5 then 5
  else if slot < 10 then 10
  else if slot < 20 then 20
  else if slot < 50 then 60
  else 120

/-- `getTimeout` in the anonymous namespace of `waitlist.cpp`: fifteen
seconds longer than the expected retry attempt. -/
def getTimeout (slot : Nat) : Nat := getTime slot + 15

/-- The C++ expiry test `(it->timeout - time) <= 0`: the subtraction is
performed in `uint64_t` (`std::size_t` operand against `int64_t`), so the
unsigned result is `<= 0` exactly when it is `0`, i.e. when
`timeout - time ≡ 0 [ZMOD 2^64]`. -/
def staleB (time : Int) (w : Wait) : Bool :=
  ((w.timeout : Int) - time) % (sizeTMod : Int) == 0

/-- The purge loop of `clientLogin` on the list: erase every entry that
passes the `staleB` test, keep the rest in order. -/
def purgeList (time : Int) (l : List Wait) : List Wait :=
  l.filter (fun w => !staleB time w)

/-- Effect of the purge loop on the `priorityEnd` iterator (`std::list`
iterators are stable pointers to nodes): if the node it points at is
erased it dangles; otherwise its new index is the number of surviving
nodes before it.  `end()` stays `end()`. -/
def purgeBoundary (time : Int) (l : List Wait) (b : BoundaryRef) : BoundaryRef :=
  match b with
  | BoundaryRef.atEnd => BoundaryRef.atEnd
  | BoundaryRef.dangling => BoundaryRef.dangling
  | BoundaryRef.idx i =>
    match l.get? i with
    | none => BoundaryRef.dangling
    | some w =>
      if staleB time w then BoundaryRef.dangling
      else BoundaryRef.idx ((l.take i).countP (fun w => !staleB time w))

/-- Effect of erasing the node at position `i` on the `priorityEnd`
iterator: the erased node's iterator dangles, later nodes shift down one
position, earlier nodes and `end()` are unaffected. -/
def eraseBoundary (b : BoundaryRef) (i : Nat) : BoundaryRef :=
  match b with
  | BoundaryRef.atEnd => BoundaryRef.atEnd
  | BoundaryRef.dangling => BoundaryRef.dangling
  | BoundaryRef.idx j =>
    if j = i then BoundaryRef.dangling
    else if i < j then BoundaryRef.idx (j - 1)
    else BoundaryRef.idx j

/-- `waitList.erase(it)` where `it` points at position `i`. -/
def eraseAt : List Wait → Nat → List Wait
  | [], _ => []
  | _ :: ws, 0 => ws
  | w :: ws, i + 1 => w :: eraseAt ws i

/-- `it->timeout = t` where `it` points at position `i`. -/
def setTimeoutAt : List Wait → Nat → Nat → List Wait
  | [], _, _ => []
  | w :: ws, 0, t => ⟨t, w.playerGUID⟩ :: ws
  | w :: ws, i + 1, t => w :: setTimeoutAt ws i t

/-- `waitList.emplace(pos, ...)` where `pos` is the iterator at position
`i`: insert a new node immediately before position `i`. -/
def insertAtList (l : List Wait) (i : Nat) (w : Wait) : List Wait :=
  l.take i ++ w :: l.drop i

/-- `std::distance(waitList.begin(), priorityEnd)`.  `end()` is at distance
`length`.  Computing the distance to a dangling iterator is undefined
behaviour in C++; the model fixes it (arbitrarily) to `length`, and no
theorem below depends on that choice. -/
def boundaryDistance (l : List Wait) (b : BoundaryRef) : Nat :=
  match b with
  | BoundaryRef.atEnd => l.length
  | BoundaryRef.idx i => i
  | BoundaryRef.dangling => l.length

/-- The loop body of `WaitListInfo::findClient`: walk the list with the
1-based counter `slot`; on the first entry whose `playerGUID` matches,
return its position (`some` of the 0-based index) together with `slot`;
at the end of the list return `end` (`none`) and the final counter value
(`length + 1` relative to the start). -/
def findClientGo (guid : Nat) : List Wait → Nat → Option Nat × Nat
  | [], slot => (none, slot)
  | w :: ws, slot =>
    if w.playerGUID = guid then (some (slot - 1), slot)
    else findClientGo guid ws (slot + 1)

/-- `WaitListInfo::findClient`: scan from the front with `slot` starting
at `1`. -/
def findClient (guid : Nat) (l : List Wait) : Option Nat × Nat :=
  findClientGo guid l 1

/-- The part of `WaitingList::clientLogin` that runs after the purge pass,
acting on the purged list `l` and purged boundary `b` (the lookup, the
admit-or-refresh branch for a found entry, and the premium/standard
insertion for an absent one). -/
def clientLoginQueue (p : Player) (time : Int) (online maxPlayers : Nat)
    (l : List Wait) (b : BoundaryRef) : Bool × WaitListInfo :=
  match findClient p.guid l with
  | (some i, slot) =>
    if online + slot ≤ maxPlayers then
      (true, ⟨eraseAt l i, eraseBoundary b i⟩)
    else
      (false, ⟨setTimeoutAt l i (toSizeT (time + ((getTimeout slot * 1000 : Nat) : Int))), b⟩)
  | (none, _) =>
    if p.premium then
      let d := boundaryDistance l b
      let w : Wait := ⟨toSizeT (time + ((getTimeout (d + 1) * 1000 : Nat) : Int)), p.guid⟩
      (false, ⟨insertAtList l d w, BoundaryRef.idx d⟩)
    else
      let w : Wait := ⟨toSizeT (time + ((getTimeout (l.length + 1) * 1000 : Nat) : Int)), p.guid⟩
      (false, ⟨l ++ [w], b⟩)

/-- `WaitingList::clientLogin`.  Returns the boolean admission decision and
the queue state after the call.  `time` is `OTSYS_TIME()`, `online` is
`g_game.getPlayersOnline()`, `maxPlayers` is the configured
`MAX_PLAYERS` (all re-read from the environment on each call). -/
def clientLogin (p : Player) (time : Int) (online maxPlayers : Nat)
    (st : WaitListInfo) : Bool × WaitListInfo :=
  if p.canAlwaysLogin || ACCOUNT_TYPE_GAMEMASTER ≤ p.accountType then
    (true, st)
  else if maxPlayers = 0 ∨ (st.waitList = [] ∧ online < maxPlayers) then
    (true, st)
  else
    clientLoginQueue p time online maxPlayers
      (purgeList time st.waitList) (purgeBoundary time st.waitList st.priorityEnd)

/-- `WaitingList::getClientSlot`.  Pure lookup; returned together with the
(unchanged) state to make the frame property statable. -/
def getClientSlot (p : Player) (st : WaitListInfo) : Nat × WaitListInfo :=
  match findClient p.guid st.waitList with
  | (some _, slot) => (slot, st)
  | (none, _) => (0, st)

/-- The state of the freshly constructed `WaitingList` (empty list,
`priorityEnd = waitList.end()`). -/
def initState : WaitListInfo := ⟨[], BoundaryRef.atEnd⟩

/-- The queue states reachable from the initial state by `clientLogin`
calls, with the environment (time, online count, configured maximum) and
the calling player arbitrary at each call. -/
inductive Reachable : WaitListInfo → Prop where
  | init : Reachable initState
  | step (p : Player) (time : Int) (online maxPlayers : Nat) (st : WaitListInfo) :
      Reachable st → Reachable (clientLogin p time online maxPlayers st).2

/-- The GUIDs of the entries of a list, front to back. -/
def guids (l : List Wait) : List Nat := l.map Wait.playerGUID

/-- No two entries of the queue share a `playerGUID`. -/
def UniqueGuids (st : WaitListInfo) : Prop := (guids st.waitList).Nodup

end Waitlist

namespace Waitlist

/-! ## Basic facts about the timeout policy -/

/-- C5: `getTime` is the non-decreasing step function with value 5 on
slots 1–4, 10 on 5–9, 20 on 10–19, 60 on 20–49 and 120 from 50 on, and
`getTimeout slot = getTime slot + 15` for every slot. -/
theorem getTime_step_and_getTimeout_margin (s t : Nat) :
    (s ≤ t → getTime s ≤ getTime t)
    ∧ (1 ≤ s → s < 5 → getTime s = 5)
    ∧ (5 ≤ s → s < 10 → getTime s = 10)
    ∧ (10 ≤ s → s < 20 → getTime s = 20)
    ∧ (20 ≤ s → s < 50 → getTime s = 60)
    ∧ (50 ≤ s → getTime s = 120)
    ∧ getTimeout s = getTime s + 15 := by
  refine ⟨?_, ?_, ?_, ?_, ?_, ?_, rfl⟩ <;>
    · intros
      unfold getTime
      split_ifs <;> omega

/-- Witness for C5 at concrete slots: one slot from each step of the
table, one monotonicity instance, and one `getTimeout` instance. -/
theorem getTime_step_and_getTimeout_margin_witness :
    getTime 3 ≤ getTime 7 ∧ getTime 3 = 5 ∧ getTime 7 = 10 ∧ getTime 12 = 20
    ∧ getTime 30 = 60 ∧ getTime 60 = 120 ∧ getTimeout 60 = getTime 60 + 15 :=
  ⟨(getTime_step_and_getTimeout_margin 3 7).1 (by decide),
   (getTime_step_and_getTimeout_margin 3 7).2.1 (by decide) (by decide),
   (getTime_step_and_getTimeout_margin 7 7).2.2.1 (by decide) (by decide),
   (getTime_step_and_getTimeout_margin 12 12).2.2.2.1 (by decide) (by decide),
   (getTime_step_and_getTimeout_margin 30 30).2.2.2.2.1 (by decide) (by decide),
   (getTime_step_and_getTimeout_margin 60 60).2.2.2.2.2.1 (by decide),
   (getTime_step_and_getTimeout_margin 60 60).2.2.2.2.2.2⟩

/-! ## The unlimited-capacity shortcut -/

/-- C7: with `maxPlayers = 0` every `clientLogin` call admits, whatever the
player, the time, the online count and the queue state. -/
theorem clientLogin_unlimited_admits (p : Player) (time : Int) (online : Nat)
    (st : WaitListInfo) : (clientLogin p time online 0 st).1 = true := by
  unfold clientLogin
  split
  · rfl
  · rw [if_pos (Or.inl rfl)]

/-! ## `getClientSlot` performs no mutation -/

/-- C9: `getClientSlot` leaves the whole queue state — entries, order,
deadlines and the `priorityEnd` boundary — unchanged; in particular it
never purges, even when deadlines have elapsed. -/
theorem getClientSlot_leaves_state_unchanged (p : Player) (st : WaitListInfo) :
    (getClientSlot p st).2 = st := by
  rcases h : findClient p.guid st.waitList with ⟨o, s⟩
  cases o <;> simp [getClientSlot, h]

/-! ## Behaviour of the purge pass on elapsed entries (C1) -/

/-- C1 is refuted by the code: with one queued entry whose deadline `5` has
already passed at time `10`, another player's `clientLogin` call keeps the
stale entry in the queue (the unsigned subtraction `timeout - time` makes
the erase condition `<= 0` hold only when `timeout` equals the current
time mod `2^64`).  The claimed behaviour is that the entry is removed. -/
theorem clientLogin_keeps_elapsed_entry :
    (clientLogin ⟨2, false, 1, false⟩ 10 1 1 ⟨[⟨5, 1⟩], BoundaryRef.atEnd⟩).2.waitList
      = [⟨5, 1⟩, ⟨20010, 2⟩]
    ∧ staleB 10 ⟨5, 1⟩ = false ∧ (5 : Int) < 10 := by
  refine ⟨?_, ?_, by decide⟩ <;> decide

/-! ## Order produced by premium insertions (C2, C3) -/

/-- C2 is refuted by the code: two premium players queueing one after the
other end up in reverse arrival order (`priorityEnd` is reassigned to the
newly inserted node, so each premium entry is inserted *before* the
previous one).  Player 1 queued first yet ends at slot 2, player 2 at
slot 1. -/
theorem premium_insertions_reverse_arrival_order :
    guids (clientLogin ⟨2, false, 1, true⟩ 0 1 1
        (clientLogin ⟨1, false, 1, true⟩ 0 1 1 initState).2).2.waitList = [2, 1]
    ∧ (getClientSlot ⟨1, false, 1, true⟩ (clientLogin ⟨2, false, 1, true⟩ 0 1 1
        (clientLogin ⟨1, false, 1, true⟩ 0 1 1 initState).2).2).1 = 2
    ∧ (getClientSlot ⟨2, false, 1, true⟩ (clientLogin ⟨2, false, 1, true⟩ 0 1 1
        (clientLogin ⟨1, false, 1, true⟩ 0 1 1 initState).2).2).1 = 1 := by
  refine ⟨?_, ?_, ?_⟩ <;> decide

/-- C3 is refuted by the code: in the spec scenario (`maxPlayers = 2`,
`online = 2`, empty queue; standard player A guid 10 queues, then premium
player B guid 20), A's entry is created as claimed (denied, slot 1,
deadline `now + 20000`), but B is inserted *after* A — the initial
`priorityEnd` is `end()`, so the first premium insertion lands at the back
— giving `getClientSlot A = 1` and `getClientSlot B = 2`, the opposite of
the claimed `A = 2`, `B = 1`. -/
theorem premium_not_inserted_before_standard :
    (clientLogin ⟨10, false, 1, false⟩ 0 2 2 initState).1 = false
    ∧ (clientLogin ⟨10, false, 1, false⟩ 0 2 2 initState).2.waitList
        = [⟨20000, 10⟩]
    ∧ (clientLogin ⟨20, false, 1, true⟩ 0 2 2
        (clientLogin ⟨10, false, 1, false⟩ 0 2 2 initState).2).1 = false
    ∧ (getClientSlot ⟨10, false, 1, false⟩ (clientLogin ⟨20, false, 1, true⟩ 0 2 2
        (clientLogin ⟨10, false, 1, false⟩ 0 2 2 initState).2).2).1 = 1
    ∧ (getClientSlot ⟨20, false, 1, true⟩ (clientLogin ⟨20, false, 1, true⟩ 0 2 2
        (clientLogin ⟨10, false, 1, false⟩ 0 2 2 initState).2).2).1 = 2 := by
  refine ⟨?_, ?_, ?_, ?_, ?_⟩ <;> decide

end Waitlist

namespace Waitlist

/-! ## Lemmas about `findClient` -/

/-- The scan returns `none` exactly when the GUID occurs nowhere. -/
theorem findClientGo_none_iff (guid : Nat) (l : List Wait) : ∀ s : Nat,
    (findClientGo guid l s).1 = none ↔ guid ∉ guids l := by
  induction l with
  | nil => intro s; simp [findClientGo, guids]
  | cons w ws ih =>
    intro s
    by_cases h : w.playerGUID = guid
    · simp [findClientGo, h, guids]
    · simp only [findClientGo, if_neg h, guids, List.map_cons, List.mem_cons]
      rw [ih (s + 1)]
      constructor
      · rintro hn (rfl | hm)
        · exact h rfl
        · exact hn hm
      · intro hn hm
        exact hn (Or.inr hm)

/-- The slot counter returned by the scan is the start value plus the index
of the first occurrence of the GUID (`List.indexOf` returns the length
when the GUID is absent, matching the final counter value `s + length`). -/
theorem findClientGo_slot_eq (guid : Nat) (l : List Wait) : ∀ s : Nat,
    (findClientGo guid l s).2 = s + List.indexOf guid (guids l) := by
  induction l with
  | nil => intro s; simp [findClientGo, guids]
  | cons w ws ih =>
    intro s
    by_cases h : w.playerGUID = guid
    · subst h
      simp [findClientGo, guids]
    · simp only [findClientGo, if_neg h, guids, List.map_cons]
      rw [List.indexOf_cons_ne _ h]
      have hih := ih (s + 1)
      simp only [guids] at hih
      rw [hih]
      omega

/-- Structure of a successful scan: the returned index is `slot - 1`, the
slot is at least the start value, and the entry at relative position
`slot - s` carries the GUID. -/
theorem findClientGo_some (guid : Nat) (l : List Wait) : ∀ s i sl : Nat, 1 ≤ s →
    findClientGo guid l s = (some i, sl) →
    i = sl - 1 ∧ s ≤ sl ∧ ∃ w, l.get? (sl - s) = some w ∧ w.playerGUID = guid := by
  induction l with
  | nil => intro s i sl _ h; simp [findClientGo] at h
  | cons w ws ih =>
    intro s i sl hs h
    by_cases hw : w.playerGUID = guid
    · simp only [findClientGo, if_pos hw, Prod.mk.injEq, Option.some.injEq] at h
      obtain ⟨h1, h2⟩ := h
      subst h2
      exact ⟨h1.symm, le_refl s, ⟨w, by simp, hw⟩⟩
    · simp only [findClientGo, if_neg hw] at h
      obtain ⟨hi, hsle, w', hget, hguid⟩ := ih (s + 1) i sl (by omega) h
      refine ⟨hi, by omega, w', ?_, hguid⟩
      have hidx : sl - s = (sl - (s + 1)) + 1 := by omega
      rw [hidx]
      simpa using hget

/-- A successful lookup means the GUID occurs in the list. -/
theorem findClient_some_mem (guid : Nat) (l : List Wait) (i s : Nat)
    (h : findClient guid l = (some i, s)) : guid ∈ guids l := by
  by_contra hn
  have h2 := (findClientGo_none_iff guid l 1).mpr hn
  rw [show findClientGo guid l 1 = findClient guid l from rfl, h] at h2
  cases h2

/-- After erasing the entry found by the scan (position `sl - s`), the GUID
occurs nowhere — provided the GUID occurred at most once to begin with. -/
theorem eraseAt_found_not_mem (guid : Nat) (l : List Wait) : ∀ s i sl : Nat,
    (guids l).Nodup → 1 ≤ s → findClientGo guid l s = (some i, sl) →
    guid ∉ guids (eraseAt l (sl - s)) := by
  induction l with
  | nil => intro s i sl _ _ h; simp [findClientGo] at h
  | cons w ws ih =>
    intro s i sl hnd hs h
    have hnd' : w.playerGUID ∉ guids ws ∧ (guids ws).Nodup := by
      rw [show guids (w :: ws) = w.playerGUID :: guids ws from rfl, List.nodup_cons] at hnd
      exact hnd
    by_cases hw : w.playerGUID = guid
    · simp only [findClientGo, if_pos hw, Prod.mk.injEq, Option.some.injEq] at h
      obtain ⟨_, h2⟩ := h
      subst h2
      simp only [Nat.sub_self, eraseAt]
      rw [← hw]
      exact hnd'.1
    · simp only [findClientGo, if_neg hw] at h
      obtain ⟨_, hsle, _⟩ := findClientGo_some guid ws (s + 1) i sl (by omega) h
      have hidx : sl - s = (sl - (s + 1)) + 1 := by omega
      rw [hidx]
      simp only [eraseAt, guids, List.map_cons, List.mem_cons, not_or]
      exact ⟨fun hg => hw hg.symm, ih (s + 1) i sl hnd'.2 (by omega) h⟩

end Waitlist

namespace Waitlist

/-! ## Lemmas about the list operations -/

/-- Refreshing a deadline changes no GUID and no position. -/
theorem guids_setTimeoutAt (l : List Wait) : ∀ i t : Nat,
    guids (setTimeoutAt l i t) = guids l := by
  induction l with
  | nil => intro i t; rfl
  | cons w ws ih =>
    intro i t
    cases i with
    | zero => rfl
    | succ i =>
      simp only [setTimeoutAt, guids, List.map_cons]
      have hih := ih i t
      simp only [guids] at hih
      rw [hih]

/-- The refreshed entry sits at the same position with the new deadline and
its old GUID. -/
theorem get_setTimeoutAt (l : List Wait) : ∀ i t : Nat, ∀ w : Wait, l.get? i = some w →
    (setTimeoutAt l i t).get? i = some ⟨t, w.playerGUID⟩ := by
  induction l with
  | nil => intro i t w h; cases h
  | cons w' ws ih =>
    intro i t w h
    cases i with
    | zero => cases h; rfl
    | succ i => simpa [setTimeoutAt] using ih i t w (by simpa using h)

/-- The lookup scan only inspects GUIDs, so it is unchanged by a deadline
refresh. -/
theorem findClientGo_setTimeoutAt (guid : Nat) (l : List Wait) : ∀ i t s : Nat,
    findClientGo guid (setTimeoutAt l i t) s = findClientGo guid l s := by
  induction l with
  | nil => intro i t s; rfl
  | cons w ws ih =>
    intro i t s
    cases i with
    | zero => rfl
    | succ i =>
      simp only [setTimeoutAt, findClientGo]
      rw [ih i t (s + 1)]

/-- Erasure yields a sublist. -/
theorem eraseAt_sublist (l : List Wait) : ∀ i : Nat, List.Sublist (eraseAt l i) l := by
  induction l with
  | nil => intro i; simp [eraseAt]
  | cons w ws ih =>
    intro i
    cases i with
    | zero => exact List.sublist_cons_self w ws
    | succ i => exact (ih i).cons₂ w

/-- The purge pass yields a sublist. -/
theorem purgeList_sublist (time : Int) (l : List Wait) : List.Sublist (purgeList time l) l :=
  List.filter_sublist l

/-- GUID-distinctness survives passing to a sublist. -/
theorem guids_nodup_of_sublist {l₁ l₂ : List Wait} (h : List.Sublist l₁ l₂)
    (h₂ : (guids l₂).Nodup) : (guids l₁).Nodup :=
  List.Nodup.sublist (h.map Wait.playerGUID) h₂

/-- GUID sequence produced by an insertion at position `i`. -/
theorem guids_insertAtList (l : List Wait) (i : Nat) (w : Wait) :
    guids (insertAtList l i w)
      = (guids l).take i ++ w.playerGUID :: (guids l).drop i := by
  simp [insertAtList, guids, List.map_take, List.map_drop]

/-- Appending at the back is insertion at position `length`. -/
theorem append_singleton_eq_insertAtList (l : List Wait) (w : Wait) :
    l ++ [w] = insertAtList l l.length w := by
  simp [insertAtList]

/-- Inserting an entry adds exactly one occurrence of its GUID. -/
theorem count_guids_insertAtList (l : List Wait) (i : Nat) (t g : Nat) :
    List.count g (guids (insertAtList l i ⟨t, g⟩))
      = List.count g (guids l) + 1 := by
  rw [guids_insertAtList]
  dsimp only
  rw [List.count_append, List.count_cons_self]
  conv_rhs => rw [← List.take_append_drop i (guids l), List.count_append]
  omega

/-- Inserting a fresh GUID preserves GUID-distinctness. -/
theorem nodup_insertAtList (l : List Wait) (i : Nat) (w : Wait)
    (h : (guids l).Nodup) (hn : w.playerGUID ∉ guids l) :
    (guids (insertAtList l i w)).Nodup := by
  rw [guids_insertAtList, List.nodup_middle, List.nodup_cons, List.take_append_drop]
  exact ⟨hn, h⟩

/-! ## Lemmas about `getClientSlot` -/

/-- A player whose GUID is absent gets slot `0`. -/
theorem getClientSlot_eq_zero (p : Player) (st : WaitListInfo)
    (h : p.guid ∉ guids st.waitList) : (getClientSlot p st).1 = 0 := by
  have h2 := (findClientGo_none_iff p.guid st.waitList 1).mpr h
  unfold getClientSlot
  rcases hf : findClient p.guid st.waitList with ⟨o, s⟩
  rw [show findClientGo p.guid st.waitList 1 = findClient p.guid st.waitList from rfl, hf] at h2
  cases o with
  | none => rfl
  | some i => cases h2

/-- A successful lookup reports the slot the scan computed. -/
theorem getClientSlot_of_found (p : Player) (st : WaitListInfo) (i s : Nat)
    (h : findClient p.guid st.waitList = (some i, s)) : (getClientSlot p st).1 = s := by
  unfold getClientSlot
  rw [h]

end Waitlist

namespace Waitlist

/-! ## Branch equations for `clientLogin` -/

/-- When neither bypass applies (no always-login flag, account tier below
gamemaster, a nonzero configured maximum) and the queue is nonempty,
`clientLogin` runs the purge pass and then the queue stage. -/
theorem clientLogin_queue_eq (p : Player) (time : Int) (online m : Nat)
    (st : WaitListInfo) (hflag : p.canAlwaysLogin = false)
    (hacct : p.accountType < ACCOUNT_TYPE_GAMEMASTER) (hm : m ≠ 0)
    (hfast : st.waitList = [] → m ≤ online) :
    clientLogin p time online m st
      = clientLoginQueue p time online m (purgeList time st.waitList)
          (purgeBoundary time st.waitList st.priorityEnd) := by
  have h1 : ¬(p.canAlwaysLogin || decide (ACCOUNT_TYPE_GAMEMASTER ≤ p.accountType)) = true := by
    simp only [hflag, Bool.false_or, decide_eq_true_eq]
    omega
  have h2 : ¬(m = 0 ∨ (st.waitList = [] ∧ online < m)) := by
    rintro (h | ⟨h, hlt⟩)
    · exact hm h
    · exact absurd hlt (Nat.not_lt.mpr (hfast h))
  unfold clientLogin
  rw [if_neg h1, if_neg h2]

/-- Queue stage, found case: the admit-or-refresh conditional. -/
theorem clientLoginQueue_found (p : Player) (time : Int) (online m : Nat)
    (l : List Wait) (b : BoundaryRef) (i s : Nat)
    (hfind : findClient p.guid l = (some i, s)) :
    clientLoginQueue p time online m l b
      = if online + s ≤ m then (true, ⟨eraseAt l i, eraseBoundary b i⟩)
        else (false, ⟨setTimeoutAt l i
            (toSizeT (time + ((getTimeout s * 1000 : Nat) : Int))), b⟩) := by
  unfold clientLoginQueue
  rw [hfind]

/-- Queue stage, not-found case: the premium-or-standard insertion. -/
theorem clientLoginQueue_notFound (p : Player) (time : Int) (online m : Nat)
    (l : List Wait) (b : BoundaryRef) (s : Nat)
    (hfind : findClient p.guid l = (none, s)) :
    clientLoginQueue p time online m l b
      = if p.premium then
          (false, ⟨insertAtList l (boundaryDistance l b)
            ⟨toSizeT (time + ((getTimeout (boundaryDistance l b + 1) * 1000 : Nat) : Int)),
              p.guid⟩, BoundaryRef.idx (boundaryDistance l b)⟩)
        else
          (false, ⟨l ++ [⟨toSizeT (time + ((getTimeout (l.length + 1) * 1000 : Nat) : Int)),
              p.guid⟩], b⟩) := by
  unfold clientLoginQueue
  rw [hfind]

/-- The queue stage never admits a player it has to insert, and always
denies when it refreshes or inserts: its decision is `true` exactly in the
found-and-within-capacity case. -/
theorem clientLoginQueue_false_of_notFound (p : Player) (time : Int) (online m : Nat)
    (l : List Wait) (b : BoundaryRef) (s : Nat)
    (hfind : findClient p.guid l = (none, s)) :
    (clientLoginQueue p time online m l b).1 = false := by
  rw [clientLoginQueue_notFound p time online m l b s hfind]
  split <;> rfl

/-! ## The GUID-uniqueness invariant -/

/-- One `clientLoginQueue` step preserves GUID-distinctness. -/
theorem clientLoginQueue_preserves_nodup (p : Player) (time : Int) (online m : Nat)
    (l : List Wait) (b : BoundaryRef) (h : (guids l).Nodup) :
    (guids (clientLoginQueue p time online m l b).2.waitList).Nodup := by
  rcases hf : findClient p.guid l with ⟨o, s⟩
  cases o with
  | some i =>
    rw [clientLoginQueue_found p time online m l b i s hf]
    split
    · exact guids_nodup_of_sublist (eraseAt_sublist l i) h
    · simpa [guids_setTimeoutAt] using h
  | none =>
    have hnm : p.guid ∉ guids l := by
      have := (findClientGo_none_iff p.guid l 1).mp
      rw [show findClientGo p.guid l 1 = findClient p.guid l from rfl, hf] at this
      exact this rfl
    rw [clientLoginQueue_notFound p time online m l b s hf]
    split
    · exact nodup_insertAtList l (boundaryDistance l b) _ h hnm
    · rw [append_singleton_eq_insertAtList]
      exact nodup_insertAtList l l.length _ h hnm

/-- One `clientLogin` call preserves GUID-distinctness of the queue. -/
theorem clientLogin_preserves_uniqueGuids (p : Player) (time : Int) (online m : Nat)
    (st : WaitListInfo) (h : UniqueGuids st) :
    UniqueGuids (clientLogin p time online m st).2 := by
  unfold clientLogin
  split
  · exact h
  · split
    · exact h
    · exact clientLoginQueue_preserves_nodup p time online m _ _
        (guids_nodup_of_sublist (purgeList_sublist time st.waitList) h)

/-- Every reachable queue state has pairwise-distinct GUIDs (the spec's
"no two entries share the same playerID" invariant). -/
theorem reachable_uniqueGuids (st : WaitListInfo) (h : Reachable st) : UniqueGuids st := by
  induction h with
  | init => exact List.nodup_nil
  | step p time online m st' _ ih =>
    exact clientLogin_preserves_uniqueGuids p time online m st' ih

end Waitlist

namespace Waitlist

/-! ## Claim theorems: slot query, found branch, admission, denial -/

/-- C8: `getClientSlot` returns `0` exactly when the player holds no
entry; otherwise it returns the entry's 1-based position from the front of
the queue (`indexOf + 1` over the GUID sequence), which is the slot
`findClient` computes on that same state. -/
theorem getClientSlot_matches_position (p : Player) (st : WaitListInfo) :
    ((getClientSlot p st).1 = 0 ↔ p.guid ∉ guids st.waitList)
    ∧ (p.guid ∈ guids st.waitList →
        (getClientSlot p st).1 = List.indexOf p.guid (guids st.waitList) + 1)
    ∧ ((findClient p.guid st.waitList).1 ≠ none →
        (getClientSlot p st).1 = (findClient p.guid st.waitList).2) := by
  rcases hf : findClient p.guid st.waitList with ⟨o, s⟩
  have hslot : s = 1 + List.indexOf p.guid (guids st.waitList) := by
    have h := findClientGo_slot_eq p.guid st.waitList 1
    rw [show findClientGo p.guid st.waitList 1 = findClient p.guid st.waitList from rfl,
      hf] at h
    exact h
  cases o with
  | none =>
    have hnm : p.guid ∉ guids st.waitList := by
      have h := (findClientGo_none_iff p.guid st.waitList 1).mp
      rw [show findClientGo p.guid st.waitList 1 = findClient p.guid st.waitList from rfl,
        hf] at h
      exact h rfl
    have h0 : (getClientSlot p st).1 = 0 := getClientSlot_eq_zero p st hnm
    exact ⟨by simp [h0, hnm], fun hm => absurd hm hnm,
      fun hne => absurd rfl hne⟩
  | some i =>
    have hm : p.guid ∈ guids st.waitList := findClient_some_mem p.guid st.waitList i s hf
    have hs : (getClientSlot p st).1 = s := getClientSlot_of_found p st i s hf
    refine ⟨⟨fun h0 => ?_, fun hn => absurd hm hn⟩, fun _ => by rw [hs, hslot]; omega,
      fun _ => hs⟩
    rw [hs] at h0
    omega

/-- Witness for C8 on a concrete two-entry queue: the queued player with
GUID 9 sits at position 2 (`indexOf 9 + 1`), and the query result is
nonzero exactly because the GUID occurs. -/
theorem getClientSlot_matches_position_witness :
    ((getClientSlot ⟨9, false, 1, false⟩
        ⟨[⟨20000, 4⟩, ⟨20000, 9⟩], BoundaryRef.atEnd⟩).1 = 0
      ↔ (9 : Nat) ∉ guids [⟨20000, 4⟩, ⟨20000, 9⟩])
    ∧ (getClientSlot ⟨9, false, 1, false⟩
        ⟨[⟨20000, 4⟩, ⟨20000, 9⟩], BoundaryRef.atEnd⟩).1
        = List.indexOf 9 (guids [⟨20000, 4⟩, ⟨20000, 9⟩]) + 1 :=
  ⟨(getClientSlot_matches_position ⟨9, false, 1, false⟩
      ⟨[⟨20000, 4⟩, ⟨20000, 9⟩], BoundaryRef.atEnd⟩).1,
   (getClientSlot_matches_position ⟨9, false, 1, false⟩
      ⟨[⟨20000, 4⟩, ⟨20000, 9⟩], BoundaryRef.atEnd⟩).2.1 (by decide)⟩

/-- C6: a player found by the post-purge lookup at slot `s` is admitted
with their entry erased when `online + s ≤ maxPlayers`, and otherwise is
denied with the deadline refreshed to `now + getTimeout s * 1000` and the
slot unchanged.  (The side conditions say the call takes the
queue-consulting path and that the refreshed deadline stays within the
`std::size_t` range.) -/
theorem clientLogin_found_admit_or_refresh (p : Player) (time : Int) (online m : Nat)
    (st : WaitListInfo) (i s : Nat)
    (hflag : p.canAlwaysLogin = false)
    (hacct : p.accountType < ACCOUNT_TYPE_GAMEMASTER)
    (hm : m ≠ 0)
    (hfind : findClient p.guid (purgeList time st.waitList) = (some i, s))
    (htime : 0 ≤ time)
    (hrep : time + ((getTimeout s * 1000 : Nat) : Int) < (sizeTMod : Int)) :
    (online + s ≤ m →
      (clientLogin p time online m st).1 = true
      ∧ (clientLogin p time online m st).2.waitList
          = eraseAt (purgeList time st.waitList) i)
    ∧ (m < online + s →
      (clientLogin p time online m st).1 = false
      ∧ (getClientSlot p (clientLogin p time online m st).2).1 = s
      ∧ ((clientLogin p time online m st).2.waitList).get? i
          = some ⟨(time + ((getTimeout s * 1000 : Nat) : Int)).toNat, p.guid⟩) := by
  have hne : st.waitList ≠ [] := by
    intro h
    rw [h] at hfind
    simp [purgeList, findClient, findClientGo] at hfind
  rw [clientLogin_queue_eq p time online m st hflag hacct hm (fun h => absurd h hne),
    clientLoginQueue_found p time online m _ _ i s hfind]
  constructor
  · intro hcap
    rw [if_pos hcap]
    exact ⟨rfl, rfl⟩
  · intro hcap
    rw [if_neg (by omega)]
    obtain ⟨hi, _, w, hget, hguid⟩ :=
      findClientGo_some p.guid (purgeList time st.waitList) 1 i s (le_refl 1) hfind
    have hts : toSizeT (time + ((getTimeout s * 1000 : Nat) : Int))
        = (time + ((getTimeout s * 1000 : Nat) : Int)).toNat := by
      unfold toSizeT
      rw [Int.emod_eq_of_lt (by positivity) hrep]
    refine ⟨rfl, ?_, ?_⟩
    · apply getClientSlot_of_found
      show findClient p.guid (setTimeoutAt (purgeList time st.waitList) i _) = (some i, s)
      unfold findClient
      rw [findClientGo_setTimeoutAt]
      exact hfind
    · dsimp only
      have hget' : (purgeList time st.waitList).get? i = some w := by
        rw [hi]
        simpa using hget
      rw [hts] at *
      have := get_setTimeoutAt (purgeList time st.waitList) i
        ((time + ((getTimeout s * 1000 : Nat) : Int)).toNat) w hget'
      rw [this, hguid]

/-- Witness for C6 at a concrete state: the sole queued player (GUID 7,
slot 1) retries at time 10 with `online = 0`, `maxPlayers = 1`; since
`0 + 1 ≤ 1` the call admits and erases the entry. -/
theorem clientLogin_found_admit_or_refresh_witness :
    (clientLogin ⟨7, false, 1, false⟩ 10 0 1 ⟨[⟨20010, 7⟩], BoundaryRef.atEnd⟩).1 = true
    ∧ (clientLogin ⟨7, false, 1, false⟩ 10 0 1
        ⟨[⟨20010, 7⟩], BoundaryRef.atEnd⟩).2.waitList
        = eraseAt (purgeList 10 [⟨20010, 7⟩]) 0 :=
  (clientLogin_found_admit_or_refresh ⟨7, false, 1, false⟩ 10 0 1
      ⟨[⟨20010, 7⟩], BoundaryRef.atEnd⟩ 0 1 rfl (by decide) (by decide) (by decide)
      (by decide) (by decide)).1 (by decide)

end Waitlist

namespace Waitlist

/-- C4 as stated is refuted by the code: a standard player (GUID 5) is
queued while `maxPlayers = 1`, `online = 1`; a later call made while the
configured maximum is `0` (unlimited) returns admit through the shortcut
without touching the queue, so the admitted player still holds their
entry and `getClientSlot` reports slot 1, not 0. -/
theorem admitted_via_unlimited_keeps_entry :
    Reachable (clientLogin ⟨5, false, 1, false⟩ 0 1 1 initState).2
    ∧ (clientLogin ⟨5, false, 1, false⟩ 0 1 0
        (clientLogin ⟨5, false, 1, false⟩ 0 1 1 initState).2).1 = true
    ∧ (getClientSlot ⟨5, false, 1, false⟩
        (clientLogin ⟨5, false, 1, false⟩ 0 1 0
          (clientLogin ⟨5, false, 1, false⟩ 0 1 1 initState).2).2).1 = 1 :=
  ⟨Reachable.step ⟨5, false, 1, false⟩ 0 1 1 initState Reachable.init,
   by decide, by decide⟩

/-- C4 amended: on every reachable state, whenever a `clientLogin` call
that does not take a bypass shortcut (no always-login flag, account tier
below gamemaster, nonzero configured maximum) returns admit, the caller
holds no queue entry afterwards: `getClientSlot` returns 0. -/
theorem nonbypass_admission_leaves_no_entry (p : Player) (time : Int) (online m : Nat)
    (st : WaitListInfo) (hst : Reachable st)
    (hflag : p.canAlwaysLogin = false)
    (hacct : p.accountType < ACCOUNT_TYPE_GAMEMASTER)
    (hm : m ≠ 0)
    (hres : (clientLogin p time online m st).1 = true) :
    (getClientSlot p (clientLogin p time online m st).2).1 = 0 := by
  have hnd : UniqueGuids st := reachable_uniqueGuids st hst
  by_cases hne : st.waitList = []
  · by_cases hon : online < m
    · have heq : clientLogin p time online m st = (true, st) := by
        unfold clientLogin
        rw [if_neg ?hcond, if_pos (Or.inr ⟨hne, hon⟩)]
        case hcond =>
          simp only [hflag, Bool.false_or, decide_eq_true_eq]
          omega
      rw [heq]
      exact getClientSlot_eq_zero p st (by rw [hne]; simp [guids])
    · have heq := clientLogin_queue_eq p time online m st hflag hacct hm
        (fun _ => Nat.le_of_not_lt hon)
      have hfind : findClient p.guid (purgeList time st.waitList) = (none, 1) := by
        rw [hne]
        rfl
      have hfalse := clientLoginQueue_false_of_notFound p time online m
        (purgeList time st.waitList) (purgeBoundary time st.waitList st.priorityEnd) 1 hfind
      rw [heq, hfalse] at hres
      exact Bool.noConfusion hres
  · have heq := clientLogin_queue_eq p time online m st hflag hacct hm
      (fun h => absurd h hne)
    rw [heq] at hres ⊢
    rcases hf : findClient p.guid (purgeList time st.waitList) with ⟨o, s⟩
    cases o with
    | none =>
      have hfalse := clientLoginQueue_false_of_notFound p time online m
        (purgeList time st.waitList) (purgeBoundary time st.waitList st.priorityEnd) s hf
      rw [hfalse] at hres
      exact Bool.noConfusion hres
    | some i =>
      rw [clientLoginQueue_found p time online m _ _ i s hf] at hres ⊢
      by_cases hcap : online + s ≤ m
      · rw [if_pos hcap]
        apply getClientSlot_eq_zero
        have hndp : (guids (purgeList time st.waitList)).Nodup :=
          guids_nodup_of_sublist (purgeList_sublist time st.waitList) hnd
        have h1 := eraseAt_found_not_mem p.guid (purgeList time st.waitList) 1 i s
          hndp (le_refl 1) hf
        obtain ⟨hi, _, _⟩ :=
          findClientGo_some p.guid (purgeList time st.waitList) 1 i s (le_refl 1) hf
        rw [hi]
        exact h1
      · rw [if_neg hcap] at hres
        exact Bool.noConfusion hres

/-- Witness for the amended C4: on the reachable empty state a standard
player is admitted through the empty-queue path and afterwards holds no
entry. -/
theorem nonbypass_admission_leaves_no_entry_witness :
    (clientLogin ⟨3, false, 1, false⟩ 0 0 1 initState).1 = true
    ∧ (getClientSlot ⟨3, false, 1, false⟩
        (clientLogin ⟨3, false, 1, false⟩ 0 0 1 initState).2).1 = 0 :=
  ⟨by decide, nonbypass_admission_leaves_no_entry ⟨3, false, 1, false⟩ 0 0 1 initState
    Reachable.init rfl (by decide) (by decide) (by decide)⟩

/-- C10: on every reachable state, whenever `clientLogin` denies, the
caller holds exactly one queue entry on return (the refreshed pre-existing
entry, or the single freshly inserted one). -/
theorem denied_caller_holds_exactly_one_entry (p : Player) (time : Int) (online m : Nat)
    (st : WaitListInfo) (hst : Reachable st)
    (hres : (clientLogin p time online m st).1 = false) :
    List.count p.guid (guids (clientLogin p time online m st).2.waitList) = 1 := by
  have hnd : UniqueGuids st := reachable_uniqueGuids st hst
  by_cases h1 : (p.canAlwaysLogin || decide (ACCOUNT_TYPE_GAMEMASTER ≤ p.accountType)) = true
  · exfalso
    unfold clientLogin at hres
    rw [if_pos h1] at hres
    exact Bool.noConfusion hres
  by_cases h2 : m = 0 ∨ (st.waitList = [] ∧ online < m)
  · exfalso
    unfold clientLogin at hres
    rw [if_neg h1, if_pos h2] at hres
    exact Bool.noConfusion hres
  have heq : clientLogin p time online m st
      = clientLoginQueue p time online m (purgeList time st.waitList)
          (purgeBoundary time st.waitList st.priorityEnd) := by
    unfold clientLogin
    rw [if_neg h1, if_neg h2]
  rw [heq] at hres ⊢
  have hndp : (guids (purgeList time st.waitList)).Nodup :=
    guids_nodup_of_sublist (purgeList_sublist time st.waitList) hnd
  rcases hf : findClient p.guid (purgeList time st.waitList) with ⟨o, s⟩
  cases o with
  | some i =>
    rw [clientLoginQueue_found p time online m _ _ i s hf] at hres ⊢
    by_cases hcap : online + s ≤ m
    · rw [if_pos hcap] at hres
      exact Bool.noConfusion hres
    · rw [if_neg hcap]
      dsimp only
      rw [guids_setTimeoutAt]
      exact List.count_eq_one_of_mem hndp
        (findClient_some_mem p.guid (purgeList time st.waitList) i s hf)
  | none =>
    have hnm : p.guid ∉ guids (purgeList time st.waitList) := by
      have h := (findClientGo_none_iff p.guid (purgeList time st.waitList) 1).mp
      rw [show findClientGo p.guid (purgeList time st.waitList) 1
          = findClient p.guid (purgeList time st.waitList) from rfl, hf] at h
      exact h rfl
    rw [clientLoginQueue_notFound p time online m _ _ s hf]
    split
    · dsimp only
      rw [count_guids_insertAtList, List.count_eq_zero_of_not_mem hnm]
    · dsimp only
      rw [append_singleton_eq_insertAtList, count_guids_insertAtList,
        List.count_eq_zero_of_not_mem hnm]

/-- Witness for C10: a standard player denied on the reachable empty state
(capacity full) ends up with exactly one queue entry. -/
theorem denied_caller_holds_exactly_one_entry_witness :
    (clientLogin ⟨3, false, 1, false⟩ 0 1 1 initState).1 = false
    ∧ List.count 3 (guids (clientLogin ⟨3, false, 1, false⟩ 0 1 1 initState).2.waitList) = 1 :=
  ⟨by decide, denied_caller_holds_exactly_one_entry ⟨3, false, 1, false⟩ 0 1 1 initState
    Reachable.init (by decide)⟩

end Waitlist
